import Mathlib

/-!
Verification of the locus-filtering stage of `ipyrad`
(`src/ipyrad/assemble/write_outfiles.py`).

The Python functions are shallowly embedded as executable Lean functions:
a numpy 3-D character block `superseqs` of shape (locus, sample, site)
becomes `List (List (List Char))`, boolean filter arrays become `List Bool`,
and code paths that raise Python exceptions are modelled with
`Except String`.
-/

namespace Ipyrad

/-! ### Ambiguity codes and site resolution -/

/-- Modelled from the spec: the `AMBIGS` resolution table lives in `util.py`,
which is not among the given sources.  Per the spec's glossary an ambiguity
code represents the heterozygous resolution of two bases at one site; these
are the six standard two-state IUPAC codes R, S, K, Y, W, M with their
standard resolutions. -/
def AMBIGS (c : Char) : List Char :=
  if c = 'R' then ['G', 'A']
  else if c = 'S' then ['G', 'C']
  else if c = 'K' then ['G', 'T']
  else if c = 'Y' then ['T', 'C']
  else if c = 'W' then ['T', 'A']
  else if c = 'M' then ['C', 'A']
  else []

/-- The iteration order `"RSKYWM"` of the ambiguity-resolution loop in
`ucount` (write_outfiles.py line 382) and of the heterozygosity scan in
`filter_maxhet` (lines 459, 462). -/
def ambigCodes : List Char := ['R', 'S', 'K', 'Y', 'W', 'M']

/-- One iteration of the resolution loop in `ucount` (lines 383-385):
`if iupac in site: site.discard(iupac); site.update(AMBIGS[iupac])`. -/
def stepResolve (site : Finset Char) (iupac : Char) : Finset Char :=
  if iupac ∈ site then (site.erase iupac) ∪ (AMBIGS iupac).toFinset else site

/-- The resolved site set built inside `ucount` (lines 378-389):
`site = set(sitecol)`, then the resolution loop over `"RSKYWM"`, then
`site.discard("N"); site.discard("-")`. -/
def resolveSite (sitecol : List Char) : Finset Char :=
  ((ambigCodes.foldl stepResolve sitecol.toFinset).erase 'N').erase '-'

/-- The per-site polymorphism classifier `ucount`
(write_outfiles.py lines 373-401).  Returns a blank for an invariant site;
otherwise `ccx = np.sum(np.array([np.sum(sitecol == base) for base in site]) > 1)`
counts how many bases of the resolved set occur more than once among the raw
column symbols, and the site is classified `*` when `ccx > 1`, else `-`. -/
def ucount (sitecol : List Char) : Char :=
  let site := resolveSite sitecol
  if site.card < 2 then ' '
  else
    let ccx := (site.filter (fun base => 1 < sitecol.count base)).card
    if 1 < ccx then '*' else '-'

/-- Resolution of one observed symbol into the bases it contributes,
following the spec's words (§4.5): an ambiguity code resolves to its
constituent bases, missing/gap symbols are excluded, and any other symbol
stands for itself. -/
def specResolveSymbol (c : Char) : List Char :=
  if c ∈ ambigCodes then AMBIGS c
  else if c = 'N' ∨ c = '-' then []
  else [c]

/-- The multiset of resolved observed bases of a site column, following the
spec's words (§4.5): resolve ambiguity codes to their constituent bases and
exclude missing/gap symbols. -/
def resolvedBases (sitecol : List Char) : List Char :=
  sitecol.flatMap specResolveSymbol

/-- Polymorphism classification following the spec's words, in which the
multiset of resolved bases also supplies the multiplicities: blank when
fewer than two distinct resolved bases are present, `*` when two or more
resolved bases each occur more than once in the resolved multiset, `-`
otherwise. -/
def ucountSpec (sitecol : List Char) : Char :=
  let bases := resolvedBases sitecol
  if bases.dedup.length < 2 then ' '
  else if 1 < (bases.dedup.filter (fun b => 1 < bases.count b)).length then '*'
  else '-'

/-! ### Python list/array helpers -/

/-- Clamped conversion of a (possibly negative) Python slice endpoint for a
sequence of length `n`, following Python/numpy slice semantics. -/
def pyIdx (n : Nat) (i : Int) : Nat :=
  if i < 0 then (i + n).toNat else i.toNat

/-- The Python/numpy slice `l[a:b]`, with negative endpoints counted from the
end of the sequence and out-of-range endpoints clamped. -/
def pySlice (a b : Int) (l : List α) : List α :=
  (l.take (pyIdx l.length b)).drop (pyIdx l.length a)

/-- Substring containment, the Python expression `pat in s`. -/
def pyIn (pat s : List Char) : Bool :=
  (List.range (s.length + 1)).any (fun i => pat.isPrefixOf (s.drop i))

/-- The check `"pair" in data.paramsdict["datatype"]` used throughout
write_outfiles.py (lines 191, 341, 417, 464). -/
def isPaired (datatype : String) : Bool :=
  pyIn "pair".toList datatype.toList

/-- Python tuple unpacking of a row into two targets, as in the loop header
`for idx, edg in edges:` (write_outfiles.py line 421): it succeeds only on a
two-element row and raises `ValueError` otherwise. -/
def pyUnpack2 (row : List Int) : Except String (Int × Int) :=
  match row with
  | [a, b] => Except.ok (a, b)
  | _ => Except.error "ValueError: too many values to unpack"

/-! ### Edge trimming (`get_edges`, write_outfiles.py lines 281-353) -/

/-- Gap and empty-cell normalization performed in place by `get_edges`
(lines 316-319): `superseqs[superseqs == "-"] = "N"` and
`superseqs[superseqs == ""] = "N"`.  The numpy empty-string background fill
is represented here by the NUL character. -/
def normalizeCell (c : Char) : Char :=
  if c = '-' ∨ c = Char.ofNat 0 then 'N' else c

/-- Normalization of a whole chunk; numpy applies it by mutating `superseqs`
in place, so every filter running after `get_edges` sees normalized data. -/
def normalizeSeqs (superseqs : List (List (List Char))) : List (List (List Char)) :=
  superseqs.map (fun locus => locus.map (fun row => row.map normalizeCell))

/-- Number of site columns of a locus block (the `maxlen` dimension of the
numpy array; all rows of a locus have this common length). -/
def siteWidth (locus : List (List Char)) : Nat :=
  (locus.map List.length).foldr max 0

/-- Per-site count of samples with non-missing data for one locus:
`ccx = np.sum(superseqs != "N", axis=1)` (line 323).  A position past a
row's end is treated as missing. -/
def siteCoverage (locus : List (List Char)) : List Nat :=
  (List.range (siteWidth locus)).map
    (fun s => (locus.filter (fun row => row.getD s 'N' ≠ 'N')).length)

/-- Comparison `count > edgemin` where `edgemin` may be Python `None`
(`edgedict.get` returns `None` for edge-trimming policies 0 and 1, line 313);
under Python 2 any integer compares greater than `None`. -/
def cmpGt (x : Nat) : Option Nat → Bool
  | some m => m < x
  | none => true

/-- Indices of the site columns of `cc` whose coverage exceeds the bound:
`np.where(r1s > edgemins[k])[0]` (lines 333-334). -/
def whereIdx (m : Option Nat) (cc : List Nat) : List Nat :=
  (List.range cc.length).filter (fun i => cmpGt (cc.getD i 0) m)

/-- The body of the per-locus loop of `get_edges` (lines 325-351) for one
locus, given its per-site coverage `cc` and its read1/read2 split column.
`edge0`..`edge3` default to 0; `np.where(...).min()`/`.max()` raise
`ValueError` on an empty index set, which sets the edge filter flag; the
restriction-overhang trimming of lines 338-339 and 348-349 is applied
afterwards exactly as written in the source (`edge0 = edge1 + len(cut1)` and
`edge3 = edge3 - len(cut2)`). -/
def perLocusEdges (edgetuple : List Nat) (edgemins : List (Option Nat))
    (cut1 cut2 : String) (paired : Bool) (cc : List Nat) (split : Nat) :
    Bool × List Int :=
  let r1s := cc.take split
  let r2s := cc.drop (split + 4)
  let s0 := whereIdx (edgemins.getD 0 none) r1s
  let s1 := whereIdx (edgemins.getD 1 none) r1s
  let first :=
    match s0.min?, s1.max? with
    | none, _ => ((0 : Int), (0 : Int), true)
    | some m0, none => ((m0 : Int), (0 : Int), true)
    | some m0, some m1 => ((m0 : Int), (m1 : Int), false)
  let e1 := first.2.1
  let flag1 := first.2.2
  let e0 := if edgetuple.getD 0 0 ≠ 0 then e1 + (cut1.length : Int) else first.1
  let second :=
    if paired then
      let s2 := whereIdx (edgemins.getD 2 none) r2s
      let s3 := whereIdx (edgemins.getD 3 none) r2s
      match s2.min?, s3.max? with
      | none, _ => ((0 : Int), (0 : Int), true)
      | some m2, none => ((m2 : Int), (0 : Int), true)
      | some m2, some m3 => ((m2 : Int), (m3 : Int), false)
    else ((0 : Int), (0 : Int), false)
  let e2 := second.1
  let flag2 := second.2.2
  let e3 := if paired ∧ edgetuple.getD 3 0 ≠ 0 then second.2.1 - (cut2.length : Int)
            else second.2.1
  (flag1 || flag2, [e0, e1, e2, e3])

/-- The edge trimmer `get_edges` (write_outfiles.py lines 281-353).
`allsamp = superseqs.shape[0]` is, as in the source, the number of loci of
the chunk (line 291); `edgemins` maps each edge-trimming policy entry
through `edgedict = {2: 4, 3: minsamp, 4: allsamp}` with `.get` returning
`None` otherwise (lines 310-313).  The per-locus loop runs over `splits`
(line 325); the preallocated zero arrays (lines 295-297) supply the entries
of any locus the loop does not reach. -/
def get_edges (edgetuple : List Nat) (minsamp : Nat) (cut1 cut2 : String)
    (paired : Bool) (superseqs : List (List (List Char))) (splits : List Nat) :
    List Bool × List (List Int) :=
  let allsamp := superseqs.length
  let edgemins := edgetuple.map
    (fun i => if i = 2 then some 4
              else if i = 3 then some minsamp
              else if i = 4 then some allsamp
              else none)
  let ccx := (normalizeSeqs superseqs).map siteCoverage
  let rows := (List.zip ccx splits).map
    (fun p => perLocusEdges edgetuple edgemins cut1 cut2 paired p.1 p.2)
  let pad := superseqs.length - rows.length
  (rows.map Prod.fst ++ List.replicate pad false,
   rows.map Prod.snd ++ List.replicate pad [0, 0, 0, 0])

/-! ### Minimum sample coverage (`filter_minsamp`, lines 357-369) -/

/-- The minimum-sample-coverage filter:
`minfilt = np.all(superseqs != "N", axis=2).sum(axis=1) < minsamp`
(write_outfiles.py line 366) — a sample is counted only when every one of
its sites differs from `"N"`. -/
def filter_minsamp (minSamplesLocus : Nat) (superseqs : List (List (List Char))) :
    List Bool :=
  superseqs.map
    (fun locus => (locus.filter (fun row => row.all (fun c => c ≠ 'N'))).length
      < minSamplesLocus)

/-! ### Maximum shared heterozygosity (`filter_maxhet`, lines 443-474) -/

/-- The per-side scalar computed inside `filter_maxhet` (lines 457-459):
`np.array([np.sum(superseqs[idx, :, a:b] == ambig, axis=1).max() for ambig
in "RSKYWM"]).max()` — for each ambiguity code, the number of sites of the
trimmed span at which each sample carries the code, maximized over samples,
then maximized over the six codes. -/
def hetScalar (locus : List (List Char)) (a b : Int) : Nat :=
  (ambigCodes.map
    (fun amb => (locus.map (fun row => (pySlice a b row).count amb)).foldr max 0)
  ).foldr max 0

/-- The per-side scalar following the spec's words (§4.4b): for each of the
six ambiguity codes, the number of samples carrying that code at each site
column of the trimmed span, maximized across sites, then across codes. -/
def hetScalarSpec (locus : List (List Char)) (a b : Int) : Nat :=
  (ambigCodes.map
    (fun amb =>
      ((pySlice a b ((List.range (siteWidth locus)).map
          (fun s => locus.map (fun row => row.getD s 'N')))).map
        (fun col => col.count amb)).foldr max 0)
  ).foldr max 0

/-- The maximum-shared-heterozygosity filter `filter_maxhet`
(write_outfiles.py lines 443-474): per locus it computes the side-1 scalar
on the slice `edg[0]:edg[1]` and the side-2 scalar on `edg[2]:edg[3]`, and
flags the locus when `not r1s <= maxhet[0]` (single-end) or
`not (r1s <= maxhet[0] and r2s <= maxhet[1])` (paired). -/
def filter_maxhet (paired : Bool) (maxhet : Nat × Nat)
    (superseqs : List (List (List Char))) (edges : List (List Int)) : List Bool :=
  (edges.enum).foldl
    (fun acc ie =>
      let locus := superseqs.getD ie.1 []
      let r1s := hetScalar locus (ie.2.getD 0 0) (ie.2.getD 1 0)
      let r2s := hetScalar locus (ie.2.getD 2 0) (ie.2.getD 3 0)
      let fail := if paired then ¬ (r1s ≤ maxhet.1 ∧ r2s ≤ maxhet.2)
                  else ¬ (r1s ≤ maxhet.1)
      if fail then acc.set ie.1 true else acc)
    (List.replicate superseqs.length false)

/-- Replacement of one sample's entry at one site of a locus block. -/
def updateCell (locus : List (List Char)) (s t : Nat) (c : Char) :
    List (List Char) :=
  locus.set s ((locus.getD s []).set t c)

/-! ### Maximum SNP count (`filter_maxsnp`, lines 405-439) -/

/-- The per-locus SNP string `np.apply_along_axis(ucount, 1, superseqs)`
(write_outfiles.py line 418): `ucount` applied to the across-sample column
of every site position. -/
def snpsGrid (locus : List (List Char)) : List Char :=
  (List.range (siteWidth locus)).map
    (fun s => ucount (locus.map (fun row => row.getD s 'N')))

/-- The maximum-SNP-count filter `filter_maxsnp` as defined at
write_outfiles.py lines 405-439 (three parameters; the call at line 223
passes four).  On the single-end branch the loop header
`for idx, edg in edges:` (line 421) unpacks each four-entry edge row into
two targets, raising `ValueError` on any nonempty `edges`; if the loop
finishes, the branch reaches no `return` statement and yields Python
`None`.  The paired branch (line 429) references the name `splits`, which
is not among the function's parameters. -/
def filter_maxsnp (paired : Bool) (maxs1 maxs2 : Nat)
    (superseqs : List (List (List Char))) (edges : List (List Int)) :
    Except String (Option (List Bool)) :=
  if ¬ paired then
    let _snps := superseqs.map snpsGrid
    (edges.foldlM (fun (_ : Unit) row => do
        let _ ← pyUnpack2 row
        pure ()) ()) >>= fun _ =>
    Except.ok none
  else
    Except.error "NameError: name splits is not defined"

/-! ### The per-chunk filter engine (`filter_stacks`, lines 172-247) -/

/-- The per-chunk filter engine `filter_stacks` (write_outfiles.py lines
172-247).  The h5 slice `superseqs` and the stored read1/read2 boundary
column `storeSplits` are taken as inputs in place of the array-store reads.
The local name `splits` is bound only under `if "pair" in
data.paramsdict["datatype"]` (lines 191-192), so the single-end path
raises `NameError` when `get_edges(data, superseqs, splits)` is evaluated
(line 209).  `get_edges` normalizes `superseqs` in place, so the later
filters receive normalized data.  The call
`filter_maxsnp(data, superseqs, splits, edges)` at line 223 passes four
arguments to a three-parameter function, raising `TypeError`. -/
def filter_stacks (datatype : String) (minsamp minSamplesLocus : Nat)
    (edgetuple : List Nat) (cut1 cut2 : String) (maxhet : Nat × Nat)
    (maxs1 maxs2 : Nat) (superseqs : List (List (List Char)))
    (storeSplits : List Nat) :
    Except String (List Bool × List Bool × List Bool × List Bool) := do
  let paired := isPaired datatype
  let splits ← if paired then Except.ok storeSplits
               else Except.error "NameError: name splits is not defined"
  let edgeRes := get_edges edgetuple minsamp cut1 cut2 paired superseqs splits
  let edgfilter := edgeRes.1
  let edges := edgeRes.2
  let normed := normalizeSeqs superseqs
  let minfilter := filter_minsamp minSamplesLocus normed
  let hetfilter := filter_maxhet paired maxhet normed edges
  let snpfilter ← (Except.error
    "TypeError: filter_maxsnp takes exactly 3 arguments, 4 given" :
    Except String (List Bool))
  return (edgfilter, minfilter, hetfilter, snpfilter)

/-! ### Sample selection (`select_samples`, lines 258-276 and
`make_outfiles`, lines 521-557) -/

/-- The padding hack of write_outfiles.py lines 266-267 and 529-530:
`data.paramsdict["excludes"] or [""]` — an empty exclusion list is replaced
by `[""]`. -/
def pyOr (l : List String) : List String :=
  if l = [] then [""] else l

/-- The retained row-index selection `select_samples` (write_outfiles.py
lines 258-276): `excludes` and `outgroups` are concatenated (each padded by
`pyOr`), the include set is the set difference `set(samples) -
set(excludes)` (represented here by its members in first-occurrence order),
and each include is mapped to its row index in the stored ordering
`dbsamples`. -/
def select_samples (dbsamples samples excludes outgroups : List String) :
    List Nat :=
  let excl := pyOr excludes ++ pyOr outgroups
  let includes := samples.dedup.filter (fun s => s ∉ excl)
  includes.map (fun i => dbsamples.indexOf i)

/-- The sample filtering of `make_outfiles` (write_outfiles.py lines
528-532): `samples = [i for i in samples if i.name not in excludes]`, with
samples represented by their names. -/
def make_outfiles_samples (samples excludes outgroups : List String) :
    List String :=
  let excl := pyOr excludes ++ pyOr outgroups
  samples.filter (fun s => s ∉ excl)

/-! ### Helper lemmas -/

/-- Setting a cell to `c` never lowers the number of occurrences of `c`. -/
theorem count_le_count_set (l : List Char) (t : Nat) (c : Char) :
    l.count c ≤ (l.set t c).count c := by
  by_cases ht : t < l.length
  · rw [List.count_set c c l t ht]
    by_cases he : l[t] = c
    · have hpos : 0 < l.count c :=
        List.count_pos_iff.mpr (he ▸ List.getElem_mem ht)
      simp [he]
      omega
    · simp [he]
  · rw [List.set_eq_of_length_le (le_of_not_lt ht)]

/-- `List.set` commutes with `List.take`. -/
theorem take_set_comm (l : List α) (t m : Nat) (c : α) :
    (l.set t c).take m = (l.take m).set t c := by
  induction l generalizing t m with
  | nil => simp
  | cons a tl ih =>
    cases t with
    | zero => cases m with
      | zero => simp
      | succ m => simp [List.set, List.take]
    | succ t => cases m with
      | zero => simp
      | succ m => simp [List.set, List.take, ih]

/-- Setting a cell of a row to `c` never lowers the count of `c` over any
Python slice of the row. -/
theorem count_slice_le_count_slice_set (l : List Char) (a b : Int) (t : Nat)
    (c : Char) :
    (pySlice a b l).count c ≤ (pySlice a b (l.set t c)).count c := by
  unfold pySlice
  rw [List.length_set, take_set_comm, List.drop_set]
  split
  · exact le_refl _
  · exact count_le_count_set _ _ _

/-- A member of a list is bounded by the fold of `max` over it. -/
theorem le_foldr_max {l : List Nat} {x : Nat} (h : x ∈ l) :
    x ≤ l.foldr max 0 := by
  induction l with
  | nil => cases h
  | cons a tl ih =>
    rcases List.mem_cons.mp h with rfl | h'
    · exact le_max_left _ _
    · exact le_trans (ih h') (le_max_right _ _)

/-- Any single (code, sample) occurrence count of the trimmed span is
bounded by the `filter_maxhet` per-side scalar. -/
theorem count_le_hetScalar {locus : List (List Char)} {a b : Int}
    {amb : Char} {row : List Char} (hamb : amb ∈ ambigCodes)
    (hrow : row ∈ locus) :
    (pySlice a b row).count amb ≤ hetScalar locus a b := by
  unfold hetScalar
  refine le_trans (le_foldr_max (l :=
    locus.map (fun r => (pySlice a b r).count amb)) ?_) (le_foldr_max ?_)
  · exact List.mem_map_of_mem _ hrow
  · exact List.mem_map_of_mem _ hamb

/-- Every constituent produced by the `AMBIGS` table is one of the four
bases. -/
theorem mem_AMBIGS_base {c x : Char} (hx : x ∈ AMBIGS c) :
    x = 'G' ∨ x = 'A' ∨ x = 'C' ∨ x = 'T' := by
  unfold AMBIGS at hx
  split_ifs at hx <;> simp_all <;> tauto

/-- Constituent bases are not ambiguity codes. -/
theorem mem_AMBIGS_not_code {c x : Char} (hx : x ∈ AMBIGS c) :
    x ∉ ambigCodes := by
  rcases mem_AMBIGS_base hx with h | h | h | h <;> subst h <;> decide

/-- Constituent bases are neither the missing symbol nor the gap symbol. -/
theorem mem_AMBIGS_not_missing {c x : Char} (hx : x ∈ AMBIGS c) :
    x ≠ 'N' ∧ x ≠ '-' := by
  rcases mem_AMBIGS_base hx with h | h | h | h <;> subst h <;> decide

/-- Membership after folding the ambiguity-resolution step over a list of
codes: an element survives iff it was present and is not one of the codes,
or it is a constituent of a present code. -/
theorem mem_foldl_stepResolve (cs : List Char) (hnd : cs.Nodup)
    (hA : ∀ c x, x ∈ AMBIGS c → x ∉ cs) (acc : Finset Char) (b : Char) :
    b ∈ cs.foldl stepResolve acc ↔
      (b ∈ acc ∧ b ∉ cs) ∨ ∃ c ∈ cs, c ∈ acc ∧ b ∈ AMBIGS c := by
  induction cs generalizing acc with
  | nil => simp
  | cons c tl ih =>
    have hndtl : tl.Nodup := (List.nodup_cons.mp hnd).2
    have hctl : c ∉ tl := (List.nodup_cons.mp hnd).1
    have hAtl : ∀ c' x, x ∈ AMBIGS c' → x ∉ tl := by
      intro c' x hx htl
      exact hA c' x hx (List.mem_cons_of_mem _ htl)
    have hAc : ∀ x, x ∈ AMBIGS c → x ≠ c ∧ x ∉ tl := by
      intro x hx
      have := hA c x hx
      simp only [List.mem_cons, not_or] at this
      exact this
    rw [List.foldl_cons, ih hndtl hAtl]
    by_cases hc : c ∈ acc
    · simp only [stepResolve, if_pos hc, Finset.mem_union, Finset.mem_erase,
        List.mem_toFinset, List.mem_cons, not_or]
      constructor
      · rintro (⟨(⟨hbc, hbacc⟩ | hbA), hbtl⟩ | ⟨c', hc'tl, hc'mem, hbA'⟩)
        · exact Or.inl ⟨hbacc, hbc, hbtl⟩
        · exact Or.inr ⟨c, Or.inl rfl, hc, hbA⟩
        · rcases hc'mem with ⟨_, hc'acc⟩ | hc'A
          · exact Or.inr ⟨c', Or.inr hc'tl, hc'acc, hbA'⟩
          · exact absurd hc'tl (hAc c' hc'A).2
      · rintro (⟨hbacc, hbc, hbtl⟩ | ⟨c', hc'in, hc'acc, hbA'⟩)
        · exact Or.inl ⟨Or.inl ⟨hbc, hbacc⟩, hbtl⟩
        · rcases hc'in with rfl | hc'tl
          · exact Or.inl ⟨Or.inr hbA', (hAc b hbA').2⟩
          · have hc'c : c' ≠ c := fun h => hctl (h ▸ hc'tl)
            exact Or.inr ⟨c', hc'tl, Or.inl ⟨hc'c, hc'acc⟩, hbA'⟩
    · simp only [stepResolve, if_neg hc, List.mem_cons, not_or]
      constructor
      · rintro (⟨hbacc, hbtl⟩ | ⟨c', hc'tl, hc'acc, hbA'⟩)
        · have hbc : b ≠ c := fun h => hc (h ▸ hbacc)
          exact Or.inl ⟨hbacc, hbc, hbtl⟩
        · exact Or.inr ⟨c', Or.inr hc'tl, hc'acc, hbA'⟩
      · rintro (⟨hbacc, _, hbtl⟩ | ⟨c', hc'in, hc'acc, hbA'⟩)
        · exact Or.inl ⟨hbacc, hbtl⟩
        · rcases hc'in with rfl | hc'tl
          · exact absurd hc'acc hc
          · exact Or.inr ⟨c', hc'tl, hc'acc, hbA'⟩

/-- The operational resolved site set of `ucount` is exactly the set of
distinct members of the spec's resolved-bases multiset. -/
theorem resolveSite_eq_toFinset (sitecol : List Char) :
    resolveSite sitecol = (resolvedBases sitecol).toFinset := by
  ext b
  have hnd : ambigCodes.Nodup := by decide
  have hA : ∀ c x, x ∈ AMBIGS c → x ∉ ambigCodes := fun c x hx =>
    mem_AMBIGS_not_code hx
  simp only [resolveSite, Finset.mem_erase,
    mem_foldl_stepResolve ambigCodes hnd hA, List.mem_toFinset, resolvedBases,
    List.mem_flatMap]
  constructor
  · rintro ⟨hbdash, hbN, (⟨hbs, hbcode⟩ | ⟨c, hccode, hcs, hbA⟩)⟩
    · exact ⟨b, hbs, by simp [specResolveSymbol, hbcode, hbN, hbdash]⟩
    · exact ⟨c, hcs, by simp [specResolveSymbol, hccode, hbA]⟩
  · rintro ⟨c, hcs, hbspec⟩
    unfold specResolveSymbol at hbspec
    by_cases hccode : c ∈ ambigCodes
    · rw [if_pos hccode] at hbspec
      have hm := mem_AMBIGS_not_missing hbspec
      exact ⟨hm.2, hm.1, Or.inr ⟨c, hccode, hcs, hbspec⟩⟩
    · rw [if_neg hccode] at hbspec
      by_cases hmiss : c = 'N' ∨ c = '-'
      · rw [if_pos hmiss] at hbspec
        cases hbspec
      · rw [if_neg hmiss] at hbspec
        rcases List.mem_singleton.mp hbspec with rfl
        push_neg at hmiss
        exact ⟨hmiss.2, hmiss.1, Or.inl ⟨hcs, hccode⟩⟩

/-- The cardinality of the resolved site set is the number of distinct
resolved bases. -/
theorem resolveSite_card (sitecol : List Char) :
    (resolveSite sitecol).card = (resolvedBases sitecol).dedup.length := by
  rw [resolveSite_eq_toFinset, List.card_toFinset]

/-- Filtering a list's `toFinset` agrees with filtering its distinct
members. -/
theorem toFinset_filter_card_eq (l : List Char) (p : Char → Prop)
    [DecidablePred p] :
    (l.toFinset.filter p).card = (l.dedup.filter (fun b => decide (p b))).length := by
  have h1 : ((l.dedup.filter (fun b => decide (p b))).toFinset).card
      = (l.dedup.filter (fun b => decide (p b))).length := by
    rw [List.card_toFinset,
      List.Nodup.dedup ((List.nodup_dedup l).filter _)]
  rw [← h1]
  congr 1
  ext x
  simp [List.mem_filter, List.mem_dedup]

/-- Filtering the resolved site set agrees with filtering the distinct
resolved bases. -/
theorem resolveSite_filter_card (sitecol : List Char) :
    ((resolveSite sitecol).filter (fun b => 1 < sitecol.count b)).card
      = ((resolvedBases sitecol).dedup.filter
          (fun b => 1 < sitecol.count b)).length := by
  rw [resolveSite_eq_toFinset]
  exact toFinset_filter_card_eq _ _

/-! ### Claim theorems -/

/-- C1 (counterexample): on the column `A, R, R` the classifier `ucount`
returns `-`, while counting occurrences contributed by resolved ambiguity
codes toward their constituent bases (as the claim states) would make both
`A` and `G` occur more than once and hence require `*`: `ucount` does not
count resolved-code occurrences toward base multiplicities. -/
theorem ucount_resolved_counts_refuted :
    ucount ['A', 'R', 'R'] = '-' ∧ ucountSpec ['A', 'R', 'R'] = '*'
    ∧ ucount ['A', 'R', 'R'] ≠ ucountSpec ['A', 'R', 'R'] := by decide

/-- C1 (amended): `ucount` resolves ambiguity codes into their constituent
bases and excludes missing/gap symbols when determining the set of distinct
bases of a column, and returns blank when fewer than two distinct resolved
bases are present, `*` when two or more of the resolved bases each occur
more than once among the raw column symbols, and `-` otherwise; ambiguity
codes contribute to the presence of their constituent bases but not to
those bases' multiplicities, which are counted on the raw column.  In
particular `A,A,A,T,T,T ↦ *`, `A,A,A,A,A,T ↦ -`, and all-`A` is blank. -/
theorem ucount_raw_multiplicities :
    (∀ sitecol : List Char,
      ucount sitecol =
        if (resolvedBases sitecol).dedup.length < 2 then ' '
        else if 1 < ((resolvedBases sitecol).dedup.filter
            (fun b => 1 < sitecol.count b)).length then '*'
        else '-')
    ∧ ucount ['A', 'A', 'A', 'T', 'T', 'T'] = '*'
    ∧ ucount ['A', 'A', 'A', 'A', 'A', 'T'] = '-'
    ∧ ucount ['A', 'A', 'A', 'A', 'A', 'A'] = ' ' := by
  refine ⟨fun sitecol => ?_, by decide, by decide, by decide⟩
  simp only [ucount]
  rw [resolveSite_card, resolveSite_filter_card]

/-- C2: `get_edges` compares each column's non-missing count with the
threshold using a strict inequality (`r1s > edgemins[0]`, line 333), so a
locus of four samples with no missing data anywhere — every column has all
4 of 4 samples non-missing, meeting the policy-2 threshold "at least 4" —
is nevertheless flagged as an edge-trim failure. -/
theorem get_edges_strict_threshold :
    siteCoverage [['A', 'A'], ['A', 'A'], ['A', 'A'], ['A', 'A']] = [4, 4]
    ∧ (get_edges [2, 2, 2, 2] 4 "" "" false
        [[['A', 'A'], ['A', 'A'], ['A', 'A'], ['A', 'A']]] [2]).1
      = [true] := by decide

/-- C3: `filter_minsamp` counts a sample only when all of its sites are
non-missing (`np.all(superseqs != "N", axis=2)`, line 366): a locus of two
samples, each holding one non-missing base and one missing base, has two
samples with at least one non-missing base, yet with minimum 2 it is
flagged as failed. -/
theorem filter_minsamp_complete_rows_only :
    (([['A', 'N'], ['A', 'N']] : List (List Char)).filter
        (fun row => row.any (fun ch => ch ≠ 'N'))).length = 2
    ∧ filter_minsamp 2 [[['A', 'N'], ['A', 'N']]] = [true] := by decide

/-- C4: the scalar of `filter_maxhet` counts, per sample, the number of
trimmed sites carrying an ambiguity code (`np.sum(... == ambig, axis=1)`,
lines 457-459) and maximizes over samples, not the number of samples
sharing the code at one site: a single sample carrying `R` at two sites
yields the scalar 2 and a failed locus at threshold 1, while the per-site
shared count of the claim is 1 and would pass. -/
theorem filter_maxhet_per_sample_axis :
    hetScalar [['R', 'R'], ['A', 'A']] 0 2 = 2
    ∧ hetScalarSpec [['R', 'R'], ['A', 'A']] 0 2 = 1
    ∧ filter_maxhet false (1, 1) [[['R', 'R'], ['A', 'A']]] [[0, 2, 0, 0]]
      = [true] := by decide

/-- C5: on the single-end branch `filter_maxsnp` never reaches the
threshold comparison: the loop header `for idx, edg in edges:` (line 421)
unpacks each four-entry edge row into two targets and raises `ValueError`
for any nonempty chunk, so no locus is ever flagged or passed. -/
theorem filter_maxsnp_single_end_raises :
    filter_maxsnp false 1 1 [[['A', 'A'], ['T', 'T']]] [[0, 2, 0, 0]]
      = Except.error "ValueError: too many values to unpack" := by rfl

/-- C6: on every single-end configuration `filter_stacks` reaches an
undefined-variable error instead of returning the filter-outcome bundle:
the local name `splits` is bound only under the paired-datatype branch
(lines 191-192) but is passed to `get_edges` unconditionally (line 209). -/
theorem filter_stacks_single_end_name_error (datatype : String)
    (minsamp minSamplesLocus : Nat) (edgetuple : List Nat) (cut1 cut2 : String)
    (maxhet : Nat × Nat) (maxs1 maxs2 : Nat)
    (superseqs : List (List (List Char))) (storeSplits : List Nat)
    (h : isPaired datatype = false) :
    filter_stacks datatype minsamp minSamplesLocus edgetuple cut1 cut2 maxhet
      maxs1 maxs2 superseqs storeSplits
      = Except.error "NameError: name splits is not defined" := by
  simp only [filter_stacks, h]
  rfl

/-- Witness for C6: a concrete single-end chunk on which `filter_stacks`
yields the `NameError`. -/
theorem filter_stacks_single_end_name_error_witness :
    filter_stacks "rad" 4 4 [0, 0, 0, 0] "" "" (2, 2) 10 10 [[['A', 'A']]] [2]
      = Except.error "NameError: name splits is not defined" :=
  filter_stacks_single_end_name_error "rad" 4 4 [0, 0, 0, 0] "" "" (2, 2) 10 10
    [[['A', 'A']]] [2] (by decide)

/-- C7: when the side-1 policy entry is nonzero, `get_edges` emits as left
boundary the right coverage boundary shifted by the overhang length
(`edge0 = edge1 + len(cut1)`, line 339), not the left coverage boundary so
shifted: on a locus whose coverage-derived boundaries are 0 and 5 (second
conjunct, policy entry 0 leaves them untouched) with a 3-base overhang, the
emitted row is `[8, 5, 0, 0]` rather than the claim's `[0 + 3, 5, 0, 0]`. -/
theorem get_edges_cut1_from_right_edge :
    (get_edges [2, 2, 0, 0] 4 "CAT" "" false
      [List.replicate 5 (List.replicate 6 'A')] [6]).2 = [[8, 5, 0, 0]]
    ∧ (get_edges [0, 2, 0, 0] 4 "CAT" "" false
      [List.replicate 5 (List.replicate 6 'A')] [6]).2 = [[0, 5, 0, 0]]
    ∧ [[(8 : Int), 5, 0, 0]] ≠ [[0 + (3 : Int), 5, 0, 0]] := by decide

/-- C8: the retained row-index selection omits the row index of every
configured excluded or outgroup name, no excluded name survives the
`make_outfiles` sample filtering, and listing an excluded name that is not
present in the sample set leaves the selection unchanged. -/
theorem select_samples_excludes_rows
    (dbsamples samples excludes outgroups : List String) (x e : String)
    (hsub : ∀ s ∈ samples, s ∈ dbsamples)
    (hempty : "" ∉ samples) (he : e ∉ samples)
    (hx : x ∈ excludes ∨ x ∈ outgroups) :
    dbsamples.indexOf x ∉ select_samples dbsamples samples excludes outgroups
    ∧ x ∉ make_outfiles_samples samples excludes outgroups
    ∧ select_samples dbsamples samples (e :: excludes) outgroups
        = select_samples dbsamples samples excludes outgroups := by
  have hxexcl : x ∈ pyOr excludes ++ pyOr outgroups := by
    rcases hx with h | h
    · have hpe : pyOr excludes = excludes := by
        unfold pyOr
        rw [if_neg]
        rintro rfl
        cases h
      exact List.mem_append_left _ (by rw [hpe]; exact h)
    · have hpo : pyOr outgroups = outgroups := by
        unfold pyOr
        rw [if_neg]
        rintro rfl
        cases h
      exact List.mem_append_right _ (by rw [hpo]; exact h)
  refine ⟨?_, ?_, ?_⟩
  · intro hmem
    unfold select_samples at hmem
    rcases List.mem_map.mp hmem with ⟨i, hi, hidx⟩
    have hi' := List.mem_filter.mp hi
    have hisam : i ∈ samples := List.mem_dedup.mp hi'.1
    have hinexcl : i ∉ pyOr excludes ++ pyOr outgroups := by
      simpa using hi'.2
    have hidb : i ∈ dbsamples := hsub i hisam
    by_cases hxdb : x ∈ dbsamples
    · have : i = x := (List.indexOf_inj hidb hxdb).mp hidx
      exact hinexcl (this ▸ hxexcl)
    · have hlt : List.indexOf x dbsamples < dbsamples.length :=
        hidx ▸ List.indexOf_lt_length.mpr hidb
      exact hxdb (List.indexOf_lt_length.mp hlt)
  · intro hmem
    unfold make_outfiles_samples at hmem
    have hnx : x ∉ pyOr excludes ++ pyOr outgroups := by
      simpa using (List.mem_filter.mp hmem).2
    exact hnx hxexcl
  · simp only [select_samples]
    have hfc : samples.dedup.filter
        (fun s => s ∉ pyOr (e :: excludes) ++ pyOr outgroups)
        = samples.dedup.filter (fun s => s ∉ pyOr excludes ++ pyOr outgroups) := by
      apply List.filter_congr
      intro s hs
      have hss : s ∈ samples := List.mem_dedup.mp hs
      have hse : s ≠ e := fun hh => he (hh ▸ hss)
      have hs0 : s ≠ "" := fun hh => hempty (hh ▸ hss)
      have hpe : pyOr (e :: excludes) = e :: excludes := by
        unfold pyOr
        simp
      by_cases hex : excludes = []
      · subst hex
        simp [hpe, pyOr, hse, hs0]
      · have hpx : pyOr excludes = excludes := by
          unfold pyOr
          rw [if_neg hex]
        simp [hpe, hpx, hse]
    rw [hfc]

/-- Witness for C8 at a concrete sample set. -/
theorem select_samples_excludes_rows_witness :
    List.indexOf "b" ["a", "b", "c"]
        ∉ select_samples ["a", "b", "c"] ["a", "b"] ["b"] []
    ∧ "b" ∉ make_outfiles_samples ["a", "b"] ["b"] []
    ∧ select_samples ["a", "b", "c"] ["a", "b"] ("zz" :: ["b"]) []
        = select_samples ["a", "b", "c"] ["a", "b"] ["b"] [] :=
  select_samples_excludes_rows ["a", "b", "c"] ["a", "b"] ["b"] [] "b" "zz"
    (by decide) (by decide) (by decide) (Or.inl (by decide))

/-- C9: the per-side shared-heterozygosity scalar of `filter_maxhet` is
monotone under adding an occurrence of the maximal ambiguity code: if the
code `c` attains the scalar on some sample row, then overwriting any single
sample's entry at any site with `c` can only increase or preserve the
scalar, never decrease it. -/
theorem hetScalar_monotone_update (locus : List (List Char)) (a b : Int)
    (c : Char) (j s t : Nat) (hc : c ∈ ambigCodes) (hj : j < locus.length)
    (hattain : (pySlice a b (locus.getD j [])).count c = hetScalar locus a b) :
    hetScalar locus a b ≤ hetScalar (updateCell locus s t c) a b := by
  by_cases hs : s < locus.length
  · have hlen : (updateCell locus s t c).length = locus.length := by
      unfold updateCell
      exact List.length_set ..
    have hju : j < (updateCell locus s t c).length := by omega
    have hmem : (updateCell locus s t c).getD j [] ∈ updateCell locus s t c := by
      rw [List.getD_eq_getElem _ _ hju]
      exact List.getElem_mem hju
    have hgoal := count_le_hetScalar (a := a) (b := b) hc hmem
    by_cases hsj : s = j
    · subst hsj
      have hsu : s < (locus.set s ((locus.getD s []).set t c)).length := by
        rw [List.length_set]
        exact hs
      have hrow : (updateCell locus s t c).getD s [] = (locus.getD s []).set t c := by
        simp only [updateCell]
        rw [List.getD_eq_getElem _ _ hsu, List.getElem_set]
        simp
      rw [hrow] at hgoal
      calc hetScalar locus a b
          = (pySlice a b (locus.getD s [])).count c := hattain.symm
        _ ≤ (pySlice a b ((locus.getD s []).set t c)).count c :=
            count_slice_le_count_slice_set ..
        _ ≤ hetScalar (updateCell locus s t c) a b := hgoal
    · have hju' : j < (locus.set s ((locus.getD s []).set t c)).length := by
        rw [List.length_set]
        exact hj
      have hrow : (updateCell locus s t c).getD j [] = locus.getD j [] := by
        simp only [updateCell]
        rw [List.getD_eq_getElem _ _ hju', List.getD_eq_getElem _ _ hj]
        exact List.getElem_set_ne hsj _
      rw [hrow] at hgoal
      exact hattain ▸ hgoal
  · have hnoop : updateCell locus s t c = locus := by
      unfold updateCell
      exact List.set_eq_of_length_le (le_of_not_lt hs)
    rw [hnoop]

/-- Witness for C9 at a concrete one-sample locus. -/
theorem hetScalar_monotone_update_witness :
    hetScalar [['R']] 0 1 ≤ hetScalar (updateCell [['R']] 0 0 'R') 0 1 :=
  hetScalar_monotone_update [['R']] 0 1 'R' 0 0 0 (by decide) (by decide)
    (by decide)

/-- C10: on a column whose resolved set has two or more distinct bases but
in which every base of the resolved set occurs at most once among the raw
column symbols, `ucount` returns `-` — not blank and not `*`. -/
theorem ucount_all_singletons_dash (sitecol : List Char)
    (h2 : 2 ≤ (resolveSite sitecol).card)
    (h1 : ∀ b ∈ resolveSite sitecol, sitecol.count b ≤ 1) :
    ucount sitecol = '-' := by
  have hgen : ∀ S : Finset Char, 2 ≤ S.card → (∀ b ∈ S, sitecol.count b ≤ 1) →
      (if S.card < 2 then ' '
       else if 1 < (S.filter (fun b => 1 < sitecol.count b)).card then '*'
       else '-') = '-' := by
    intro S hS2 hS1
    have hfilt : S.filter (fun b => 1 < sitecol.count b) = ∅ := by
      apply Finset.filter_eq_empty_iff.mpr
      intro b hb
      have := hS1 b hb
      omega
    rw [if_neg (by omega), hfilt, Finset.card_empty, if_neg (by omega)]
  simpa only [ucount] using hgen (resolveSite sitecol) h2 h1

/-- Witness for C10: one `A` and one `T`. -/
theorem ucount_all_singletons_dash_witness : ucount ['A', 'T'] = '-' :=
  ucount_all_singletons_dash ['A', 'T'] (by decide) (by decide)

end Ipyrad
